/-
Formal verification of the `propage` repository's core algorithms:
the Fast Marching Method eikonal solver (`src/solver.py`) and the
gradient-descent ray tracer (`src/raytracer.py`).

Shallow embedding conventions:
* Python/numpy floats are modelled as real numbers (`ℝ`); `np.inf` is the
  top element of `WithTop ℝ`.
* Grids are total functions `ℤ → ℤ → α` together with explicit dimensions
  `ny nx : ℕ`; numpy's negative-index wrapping is modelled by `npIdx` at
  the places where the source code indexes with possibly-negative values.
* The solver's `while` loop is modelled by iterating a step function; the
  iteration count used by `fmm_core` is shown to dominate the number of
  loop iterations the Python loop can perform (lemma `fmm_heap_empties`).
* The linear-scan min extraction and swap-with-last removal of the
  narrow-band arrays are modelled verbatim on lists.
-/
import Mathlib

namespace Propage

noncomputable section

/-- Arrival times: a real number or `+∞` (numpy `inf`). -/
abbrev Time := WithTop ℝ

/-- numpy indexing semantics for a possibly negative index: a negative
index `i` addresses element `i + n`.  (For `0 ≤ i` the index is used as
is; the source never indexes past the end on the positive side.) -/
def npIdx (n : ℕ) (i : ℤ) : ℤ := if i < 0 then i + n else i

theorem npIdx_of_nonneg {n : ℕ} {i : ℤ} (h : 0 ≤ i) : npIdx n i = i := by
  simp [npIdx, not_lt.mpr h]

/-- Pointwise update of a grid value (numpy `g[y, x] = v`). -/
def setGrid {α : Type} (g : ℤ → ℤ → α) (y x : ℤ) (v : α) : ℤ → ℤ → α :=
  fun i j => if i = y ∧ j = x then v else g i j

theorem setGrid_same {α : Type} (g : ℤ → ℤ → α) (y x : ℤ) (v : α) :
    setGrid g y x v y x = v := by simp [setGrid]

theorem setGrid_other {α : Type} (g : ℤ → ℤ → α) {y x i j : ℤ} (v : α)
    (h : ¬(i = y ∧ j = x)) : setGrid g y x v i j = g i j := by
  simp only [setGrid, if_neg h]

/-! ## The upwind stencil (`_solve_quadratic`) -/

/-- The accumulated horizontal minimum of `_solve_quadratic`
(lines `t_horiz = inf; if x > 0 and T[y,x-1] < t_horiz: ...;
if x < nx-1 and T[y,x+1] < t_horiz: ...`). -/
def tHoriz (T : ℤ → ℤ → Time) (nx : ℕ) (y x : ℤ) : Time :=
  let th1 : Time := if 0 < x ∧ T y (x - 1) < (⊤ : Time) then T y (x - 1) else ⊤
  if x < (nx : ℤ) - 1 ∧ T y (x + 1) < th1 then T y (x + 1) else th1

/-- The accumulated vertical minimum of `_solve_quadratic`. -/
def tVert (T : ℤ → ℤ → Time) (ny : ℕ) (y x : ℤ) : Time :=
  let tv1 : Time := if 0 < y ∧ T (y - 1) x < (⊤ : Time) then T (y - 1) x else ⊤
  if y < (ny : ℤ) - 1 ∧ T (y + 1) x < tv1 then T (y + 1) x else tv1

/-- Discriminant `b*b - 4*a*c` of the stencil quadratic with
`a = 2`, `b = -2*(t1+t2)`, `c = t1² + t2² - sd²`. -/
def stencilDisc (t1 t2 sd : ℝ) : ℝ :=
  (-2 * (t1 + t2)) * (-2 * (t1 + t2)) - 4 * 2 * (t1 ^ 2 + t2 ^ 2 - sd ^ 2)

/-- The root `(-b + sqrt disc) / (2*a)` computed by the code. -/
def stencilRoot (t1 t2 sd : ℝ) : ℝ :=
  (-(-2 * (t1 + t2)) + Real.sqrt (stencilDisc t1 t2 sd)) / (2 * 2)

/-- The `t2 < inf` branch of `_solve_quadratic`: try the two-axis
quadratic, falling back to the single-axis update. -/
def quadCandidate (t1 t2 sd : ℝ) : Time :=
  if 0 ≤ stencilDisc t1 t2 sd then
    if t2 ≤ stencilRoot t1 t2 sd then ((stencilRoot t1 t2 sd : ℝ) : Time)
    else ((t1 + sd : ℝ) : Time)
  else ((t1 + sd : ℝ) : Time)

/-- The tail of `_solve_quadratic` after `t1, t2` are ordered:
`if t1 == inf: return inf`, the `t2 < inf` quadratic branch, and the
single-axis fallback `t1 + slow*dx`. -/
def axisCandidate (t1 t2 : Time) (sd : ℝ) : Time :=
  if t1 = ⊤ then ⊤
  else if t2 < ⊤ then quadCandidate (t1.untop' 0) (t2.untop' 0) sd
  else t1 + ((sd : ℝ) : Time)

/-- `_solve_quadratic(T, slowness, y, x, dx, ny, nx)`. -/
def solve_quadratic (T : ℤ → ℤ → Time) (slowness : ℤ → ℤ → ℝ)
    (y x : ℤ) (dx : ℝ) (ny nx : ℕ) : Time :=
  let slow := slowness y x
  let th := tHoriz T nx y x
  let tv := tVert T ny y x
  let t1 := if th < tv then th else tv
  let t2 := if th < tv then tv else th
  axisCandidate t1 t2 (slow * dx)

/-! ## The Fast Marching core (`_fmm_core`) -/

/-- Solver parameters: grid shape, slowness field and spacing. -/
structure FmmParams where
  ny : ℕ
  nx : ℕ
  slowness : ℤ → ℤ → ℝ
  dx : ℝ

/-- A narrow-band entry `(tentative time, y, x)`. -/
abbrev Entry := Time × ℤ × ℤ

/-- Solver state: arrival times, frozen markers, the narrow band, and
(as an observation used by the statements only) the list of tentative
times popped so far. -/
structure FmmState where
  T : ℤ → ℤ → Time
  frozen : ℤ → ℤ → Bool
  heap : List Entry
  pops : List Time

/-- Index of the minimum in `rest`, scanned left to right starting with
current best value `mt` at index `best`, next index `i` (the linear scan
`for i in range(1, hs): if heap_t[i] < mt: ...`). -/
def minIdxFrom : List Time → ℕ → Time → ℕ → ℕ
  | [], _, _, best => best
  | t :: rest, i, mt, best =>
      if t < mt then minIdxFrom rest (i + 1) t i
      else minIdxFrom rest (i + 1) mt best

/-- Index of the leftmost minimal tentative time in the band. -/
def minIdx (l : List Time) : ℕ :=
  match l with
  | [] => 0
  | t :: rest => minIdxFrom rest 1 t 0

/-- Removal of index `i` by moving the last element into its slot and
shrinking (`if mi < hs: heap[mi] = heap[hs]` after `hs -= 1`). -/
def removeSwap {α : Type} (l : List α) (i : ℕ) (d : α) : List α :=
  (l.set i (l.getLastD d)).dropLast

/-- The default entry used to read from the band (its value is never
relevant: all reads are in range). -/
def dummyEntry : Entry := (⊤, 0, 0)

/-- Update of a single neighbor `(y2, x2) = (y + dy, x + dx)` of the just
frozen cell: bounds test, frozen test, stencil, improvement test, store
and conditional push (the body of `for d in range(4)` in `_fmm_core`). -/
def processNeighbor (p : FmmParams) (c : ℤ × ℤ) (s : FmmState) (d : ℤ × ℤ) :
    FmmState :=
  let y2 := c.1 + d.1
  let x2 := c.2 + d.2
  if 0 ≤ y2 ∧ y2 < (p.ny : ℤ) ∧ 0 ≤ x2 ∧ x2 < (p.nx : ℤ) ∧
      s.frozen y2 x2 = false then
    let tn := solve_quadratic s.T p.slowness y2 x2 p.dx p.ny p.nx
    if tn < s.T y2 x2 then
      let T' := setGrid s.T y2 x2 tn
      if s.heap.length < p.ny * p.nx then
        { s with T := T', heap := s.heap ++ [(tn, y2, x2)] }
      else
        { s with T := T' }
    else s
  else s

/-- The neighbor offsets `(dy_arr, dx_arr)`. -/
def nbrOffsets : List (ℤ × ℤ) := [(-1, 0), (1, 0), (0, -1), (0, 1)]

/-- One iteration of the `while hs > 0` loop: pop the leftmost minimal
entry, discard it if its cell is frozen (stale), otherwise freeze the
cell and update its four neighbors.  On an empty band the state is
returned unchanged (the loop has terminated). -/
def fmmStep (p : FmmParams) (s : FmmState) : FmmState :=
  if s.heap = [] then s
  else
    let mi := minIdx (s.heap.map Prod.fst)
    let e := s.heap.getD mi dummyEntry
    let y := e.2.1
    let x := e.2.2
    let s1 : FmmState :=
      { s with heap := removeSwap s.heap mi dummyEntry,
               pops := s.pops ++ [e.1] }
    if s.frozen (npIdx p.ny y) (npIdx p.nx x) = true then s1
    else
      let s2 : FmmState :=
        { s1 with frozen := setGrid s1.frozen (npIdx p.ny y) (npIdx p.nx x) true }
      nbrOffsets.foldl (processNeighbor p (y, x)) s2

/-- Initial state: all times `+∞` except `T[sy, sx] = 0`, nothing frozen,
the band holding the single entry `(0, sy, sx)` (with the raw, possibly
negative, source coordinates as in the arrays `heap_y`, `heap_x`). -/
def fmmInit (p : FmmParams) (sy sx : ℤ) : FmmState :=
  { T := setGrid (fun _ _ => (⊤ : Time)) (npIdx p.ny sy) (npIdx p.nx sx)
      ((0 : ℝ) : Time)
    frozen := fun _ _ => false
    heap := [(((0 : ℝ) : Time), sy, sx)]
    pops := [] }

/-- Iteration budget that dominates the number of iterations of the
`while` loop (each iteration either freezes a cell, having pushed at most
four entries, or removes a stale entry; see `fmm_heap_empties`). -/
def fmmFuel (p : FmmParams) : ℕ := 5 * (p.ny * p.nx) + 6

/-- `_fmm_core(slowness, sy, sx, dx)`: run the loop and return the
arrival-time field. -/
def fmm_core (p : FmmParams) (sy sx : ℤ) : ℤ → ℤ → Time :=
  ((fmmStep p)^[fmmFuel p] (fmmInit p sy sx)).T

/-- `solve_eikonal(n_field, source, dx)`: no validation is performed; the
slowness field and source coordinates are handed to the core directly. -/
def solve_eikonal (ny nx : ℕ) (n_field : ℤ → ℤ → ℝ) (source : ℤ × ℤ)
    (dx : ℝ) : ℤ → ℤ → Time :=
  fmm_core ⟨ny, nx, n_field, dx⟩ source.1 source.2

/-! ## The ray tracer (`_gradient`, `_trace_core`, `trace_ray`) -/

/-- `_gradient(T, y, x)`: clamp into the interior, take the surrounding
2×2 block and blend the finite differences bilinearly.  (`int()` on the
clamped nonnegative coordinates is the floor.) -/
def gradient (T : ℤ → ℤ → ℝ) (ny nx : ℕ) (y x : ℝ) : ℝ × ℝ :=
  let y1 := max (1 / 2) (min ((ny : ℝ) - 3 / 2) y)
  let x1 := max (1 / 2) (min ((nx : ℝ) - 3 / 2) x)
  let iy : ℤ := ⌊y1⌋
  let ix : ℤ := ⌊x1⌋
  let fy := y1 - (iy : ℝ)
  let fx := x1 - (ix : ℝ)
  let iy0 := max 0 (min ((ny : ℤ) - 2) iy)
  let ix0 := max 0 (min ((nx : ℤ) - 2) ix)
  let t00 := T iy0 ix0
  let t01 := T iy0 (ix0 + 1)
  let t10 := T (iy0 + 1) ix0
  let t11 := T (iy0 + 1) (ix0 + 1)
  let gx := (1 - fy) * (t01 - t00) + fy * (t11 - t10)
  let gy := (1 - fx) * (t10 - t00) + fx * (t11 - t01)
  (gy, gx)

/-- Why the integration loop of `_trace_core` stopped. -/
inductive TraceReason where
  | gradSmall : TraceReason
  | leftGrid : ℝ × ℝ → TraceReason
  | nearSource : TraceReason
  | fuelOut : TraceReason

/-- `gn = np.sqrt(gy**2 + gx**2)`: norm of the interpolated gradient. -/
def gradNorm (T : ℤ → ℤ → ℝ) (ny nx : ℕ) (y x : ℝ) : ℝ :=
  Real.sqrt ((gradient T ny nx y x).1 ^ 2 + (gradient T ny nx y x).2 ^ 2)

/-- `y -= step * gy / gn`: the next row coordinate. -/
def nextY (T : ℤ → ℤ → ℝ) (ny nx : ℕ) (step y x : ℝ) : ℝ :=
  y - step * (gradient T ny nx y x).1 / gradNorm T ny nx y x

/-- `x -= step * gx / gn`: the next column coordinate. -/
def nextX (T : ℤ → ℤ → ℝ) (ny nx : ℕ) (step y x : ℝ) : ℝ :=
  x - step * (gradient T ny nx y x).2 / gradNorm T ny nx y x

/-- The integration loop of `_trace_core` (`for _ in range(1, maxs)`),
returning the list of appended positions. -/
def traceLoop (T : ℤ → ℤ → ℝ) (ny nx : ℕ) (sy sx step : ℝ) :
    ℕ → ℝ → ℝ → List (ℝ × ℝ)
  | 0, _, _ => []
  | k + 1, y, x =>
    if gradNorm T ny nx y x < 1 / 10000000000 then []
    else if nextY T ny nx step y x < 0 ∨ (ny : ℝ) ≤ nextY T ny nx step y x ∨
        nextX T ny nx step y x < 0 ∨ (nx : ℝ) ≤ nextX T ny nx step y x then []
    else if Real.sqrt ((nextY T ny nx step y x - sy) ^ 2 +
        (nextX T ny nx step y x - sx) ^ 2) < step * 2 then
      [(nextY T ny nx step y x, nextX T ny nx step y x)]
    else (nextY T ny nx step y x, nextX T ny nx step y x) ::
      traceLoop T ny nx sy sx step k (nextY T ny nx step y x)
        (nextX T ny nx step y x)

/-- Same loop, also reporting why it stopped (an observation used only by
the statements; `traceLoopR_fst` shows the path is unchanged). -/
def traceLoopR (T : ℤ → ℤ → ℝ) (ny nx : ℕ) (sy sx step : ℝ) :
    ℕ → ℝ → ℝ → List (ℝ × ℝ) × TraceReason
  | 0, _, _ => ([], .fuelOut)
  | k + 1, y, x =>
    if gradNorm T ny nx y x < 1 / 10000000000 then ([], .gradSmall)
    else if nextY T ny nx step y x < 0 ∨ (ny : ℝ) ≤ nextY T ny nx step y x ∨
        nextX T ny nx step y x < 0 ∨ (nx : ℝ) ≤ nextX T ny nx step y x then
      ([], .leftGrid (nextY T ny nx step y x, nextX T ny nx step y x))
    else if Real.sqrt ((nextY T ny nx step y x - sy) ^ 2 +
        (nextX T ny nx step y x - sx) ^ 2) < step * 2 then
      ([(nextY T ny nx step y x, nextX T ny nx step y x)], .nearSource)
    else
      ((nextY T ny nx step y x, nextX T ny nx step y x) ::
        (traceLoopR T ny nx sy sx step k (nextY T ny nx step y x)
          (nextX T ny nx step y x)).1,
        (traceLoopR T ny nx sy sx step k (nextY T ny nx step y x)
          (nextX T ny nx step y x)).2)

/-- `_trace_core(T, ty, tx, sy, sx, step, maxs)`: the path starts with the
target position, written before the loop. -/
def trace_core (T : ℤ → ℤ → ℝ) (ny nx : ℕ) (ty tx sy sx step : ℝ)
    (maxs : ℕ) : List (ℝ × ℝ) :=
  (ty, tx) :: traceLoop T ny nx sy sx step (maxs - 1) ty tx

/-- `_trace_core` together with the reason its loop stopped. -/
def traceRun (T : ℤ → ℤ → ℝ) (ny nx : ℕ) (ty tx sy sx step : ℝ)
    (maxs : ℕ) : List (ℝ × ℝ) × TraceReason :=
  let r := traceLoopR T ny nx sy sx step (maxs - 1) ty tx
  ((ty, tx) :: r.1, r.2)

/-- `trace_ray(T, target, source, step)`: `maxs = 30000`. -/
def trace_ray (T : ℤ → ℤ → ℝ) (ny nx : ℕ) (target source : ℝ × ℝ)
    (step : ℝ) : List (ℝ × ℝ) :=
  trace_core T ny nx target.1 target.2 source.1 source.2 step 30000

/-! ## The stencil candidate is the larger root of the spec quadratic -/

theorem stencilRoot_is_root {t1 t2 sd : ℝ} (h : 0 ≤ stencilDisc t1 t2 sd) :
    2 * stencilRoot t1 t2 sd ^ 2 - 2 * (t1 + t2) * stencilRoot t1 t2 sd +
      (t1 ^ 2 + t2 ^ 2 - sd ^ 2) = 0 := by
  have hs : Real.sqrt (stencilDisc t1 t2 sd) ^ 2 = stencilDisc t1 t2 sd :=
    Real.sq_sqrt h
  unfold stencilRoot
  unfold stencilDisc at hs ⊢
  linear_combination hs / 8

theorem stencilRoot_ge_other_root {t1 t2 sd : ℝ}
    (h : 0 ≤ stencilDisc t1 t2 sd) (z : ℝ)
    (hz : 2 * z ^ 2 - 2 * (t1 + t2) * z + (t1 ^ 2 + t2 ^ 2 - sd ^ 2) = 0) :
    z ≤ stencilRoot t1 t2 sd := by
  have hroot := stencilRoot_is_root h
  have hnn : 0 ≤ Real.sqrt (stencilDisc t1 t2 sd) := Real.sqrt_nonneg _
  set r := stencilRoot t1 t2 sd with hr
  have key : (z - r) * (2 * (z + r) - 2 * (t1 + t2)) = 0 := by
    linear_combination hz - hroot
  rcases mul_eq_zero.mp key with h1 | h2
  · linarith [sub_eq_zero.mp h1]
  · have hz' : z = (t1 + t2) - r := by linarith
    have hrv : r = ((2 * (t1 + t2)) + Real.sqrt (stencilDisc t1 t2 sd)) / 4 := by
      rw [hr]; unfold stencilRoot; ring_nf
    rw [hz', hrv]
    linarith

theorem quadCandidate_accept {t1 t2 sd : ℝ} (h : 0 ≤ stencilDisc t1 t2 sd)
    (hc : t2 ≤ stencilRoot t1 t2 sd) :
    quadCandidate t1 t2 sd = ((stencilRoot t1 t2 sd : ℝ) : Time) := by
  unfold quadCandidate
  rw [if_pos h, if_pos hc]

theorem quadCandidate_reject {t1 t2 sd : ℝ} (h : 0 ≤ stencilDisc t1 t2 sd)
    (hc : ¬ t2 ≤ stencilRoot t1 t2 sd) :
    quadCandidate t1 t2 sd = ((t1 + sd : ℝ) : Time) := by
  unfold quadCandidate
  rw [if_pos h, if_neg hc]

theorem quadCandidate_negdisc {t1 t2 sd : ℝ} (h : ¬ 0 ≤ stencilDisc t1 t2 sd) :
    quadCandidate t1 t2 sd = ((t1 + sd : ℝ) : Time) := by
  unfold quadCandidate
  rw [if_neg h]

theorem axisCandidate_top (t2 : Time) (sd : ℝ) :
    axisCandidate ⊤ t2 sd = ⊤ := by
  simp [axisCandidate]

theorem axisCandidate_coe_top (a sd : ℝ) :
    axisCandidate ((a : ℝ) : Time) ⊤ sd = ((a + sd : ℝ) : Time) := by
  simp [axisCandidate, WithTop.coe_add]

theorem axisCandidate_coe_coe (a b sd : ℝ) :
    axisCandidate ((a : ℝ) : Time) ((b : ℝ) : Time) sd = quadCandidate a b sd := by
  simp [axisCandidate, WithTop.coe_lt_top, WithTop.untop'_coe]

/-- C1: in the stencil update, with both `t1` and `t2` finite the
candidate is the larger root of
`2·t² − 2(t1+t2)·t + (t1² + t2² − (slowness·spacing)²) = 0` whenever the
discriminant is nonnegative and that root is `≥ t2`; otherwise (negative
discriminant or causality failure) it is the single-axis value
`t1 + slowness·spacing`; and with `t1` infinite the candidate is `+∞`. -/
theorem solve_quadratic_larger_root_spec (t1 t2 sd : ℝ) :
    (0 ≤ stencilDisc t1 t2 sd →
      (2 * stencilRoot t1 t2 sd ^ 2 - 2 * (t1 + t2) * stencilRoot t1 t2 sd +
          (t1 ^ 2 + t2 ^ 2 - sd ^ 2) = 0 ∧
        (∀ z : ℝ, 2 * z ^ 2 - 2 * (t1 + t2) * z +
            (t1 ^ 2 + t2 ^ 2 - sd ^ 2) = 0 → z ≤ stencilRoot t1 t2 sd) ∧
        (t2 ≤ stencilRoot t1 t2 sd →
          axisCandidate ((t1 : ℝ) : Time) ((t2 : ℝ) : Time) sd =
            ((stencilRoot t1 t2 sd : ℝ) : Time)) ∧
        (¬ t2 ≤ stencilRoot t1 t2 sd →
          axisCandidate ((t1 : ℝ) : Time) ((t2 : ℝ) : Time) sd =
            ((t1 + sd : ℝ) : Time)))) ∧
    (¬ 0 ≤ stencilDisc t1 t2 sd →
      axisCandidate ((t1 : ℝ) : Time) ((t2 : ℝ) : Time) sd =
        ((t1 + sd : ℝ) : Time)) ∧
    (∀ u : Time, axisCandidate ⊤ u sd = ⊤) := by
  refine ⟨fun h => ⟨stencilRoot_is_root h, fun z hz =>
    stencilRoot_ge_other_root h z hz, fun hc => ?_, fun hc => ?_⟩,
    fun h => ?_, fun u => axisCandidate_top u sd⟩
  · rw [axisCandidate_coe_coe, quadCandidate_accept h hc]
  · rw [axisCandidate_coe_coe, quadCandidate_reject h hc]
  · rw [axisCandidate_coe_coe, quadCandidate_negdisc h]

/-- Witness for `solve_quadratic_larger_root_spec` at
`t1 = 0`, `t2 = 1`, `slowness·spacing = 1`: the discriminant is `4`, the
larger root is `1` and it passes the causality test. -/
theorem solve_quadratic_larger_root_spec_witness :
    (0 : ℝ) ≤ stencilDisc 0 1 1 ∧ (1 : ℝ) ≤ stencilRoot 0 1 1 ∧
      axisCandidate (((0 : ℝ) : Time)) (((1 : ℝ) : Time)) 1 =
        ((stencilRoot 0 1 1 : ℝ) : Time) := by
  have h4 : Real.sqrt 4 = 2 := by
    rw [show (4 : ℝ) = 2 ^ 2 by norm_num]
    exact Real.sqrt_sq (by norm_num)
  have harg : stencilDisc 0 1 1 = 4 := by norm_num [stencilDisc]
  have hd : (0 : ℝ) ≤ stencilDisc 0 1 1 := by rw [harg]; norm_num
  have hr : stencilRoot 0 1 1 = 1 := by
    unfold stencilRoot
    rw [harg, h4]
    norm_num
  have hc : (1 : ℝ) ≤ stencilRoot 0 1 1 := by rw [hr]
  exact ⟨hd, hc, ((solve_quadratic_larger_root_spec 0 1 1).1 hd).2.2.1 hc⟩

/-! ## The axis minima of the stencil -/

theorem ite_lt_eq_min (a b : Time) : (if b < a then b else a) = min a b := by
  split_ifs with h
  · exact (min_eq_right h.le).symm
  · exact (min_eq_left (le_of_not_lt h)).symm

/-- The first accumulation step ignores the `< ⊤` test: if the read value
is `⊤` the accumulator stays `⊤` either way. -/
theorem ite_lt_top_eq (c : Prop) [Decidable c] (v : Time) :
    (if c ∧ v < (⊤ : Time) then v else ⊤) = (if c then v else ⊤) := by
  split_ifs with h1 h2 h2
  · rfl
  · exact absurd h1.1 h2
  · rcases lt_or_eq_of_le (le_top (a := v)) with hv | hv
    · exact absurd ⟨h2, hv⟩ h1
    · exact hv.symm
  · rfl

theorem tHoriz_eq_min (T : ℤ → ℤ → Time) (nx : ℕ) (y x : ℤ) :
    tHoriz T nx y x =
      min (if 0 < x then T y (x - 1) else ⊤)
        (if x < (nx : ℤ) - 1 then T y (x + 1) else ⊤) := by
  unfold tHoriz
  rw [ite_lt_top_eq]
  set a := if 0 < x then T y (x - 1) else ⊤ with ha
  by_cases hx : x < (nx : ℤ) - 1
  · simp only [hx, true_and, if_true]
    rw [ite_lt_eq_min]
  · simp only [hx, false_and, if_false]
    exact (min_eq_left le_top).symm

theorem tVert_eq_min (T : ℤ → ℤ → Time) (ny : ℕ) (y x : ℤ) :
    tVert T ny y x =
      min (if 0 < y then T (y - 1) x else ⊤)
        (if y < (ny : ℤ) - 1 then T (y + 1) x else ⊤) := by
  unfold tVert
  rw [ite_lt_top_eq]
  by_cases hy : y < (ny : ℤ) - 1
  · simp only [hy, true_and, if_true]
    rw [ite_lt_eq_min]
  · simp only [hy, false_and, if_false]
    exact (min_eq_left le_top).symm

/-- Modelled from the spec: `t_horiz` = "min of the frozen horizontal
neighbors' times (or +infinity if none)" — the variant of the horizontal
axis minimum that admits only frozen neighbors, used to compare the
spec's description with what the code computes. -/
def tHorizFrozen (T : ℤ → ℤ → Time) (frozen : ℤ → ℤ → Bool) (nx : ℕ)
    (y x : ℤ) : Time :=
  min (if 0 < x ∧ frozen y (x - 1) = true then T y (x - 1) else ⊤)
    (if x < (nx : ℤ) - 1 ∧ frozen y (x + 1) = true then T y (x + 1) else ⊤)

/-- Modelled from the spec: the analogous frozen-only vertical minimum. -/
def tVertFrozen (T : ℤ → ℤ → Time) (frozen : ℤ → ℤ → Bool) (ny : ℕ)
    (y x : ℤ) : Time :=
  min (if 0 < y ∧ frozen (y - 1) x = true then T (y - 1) x else ⊤)
    (if y < (ny : ℤ) - 1 ∧ frozen (y + 1) x = true then T (y + 1) x else ⊤)

/-- C2 (amended): in the stencil update, `t_horiz` is the minimum of the
*current stored* times of the in-bounds horizontal neighbors — frozen or
not (cells not yet assigned hold `+∞`) — and `t_vert` is the analogous
vertical minimum; the code applies no frozen filter. -/
theorem stencil_axis_minima (T : ℤ → ℤ → Time) (ny nx : ℕ) (y x : ℤ) :
    tHoriz T nx y x =
      min (if 0 < x then T y (x - 1) else ⊤)
        (if x < (nx : ℤ) - 1 then T y (x + 1) else ⊤) ∧
    tVert T ny y x =
      min (if 0 < y then T (y - 1) x else ⊤)
        (if y < (ny : ℤ) - 1 then T (y + 1) x else ⊤) :=
  ⟨tHoriz_eq_min T nx y x, tVert_eq_min T ny y x⟩

/-! ## Structural lemmas about one solver iteration -/

theorem fmmStep_of_empty {p : FmmParams} {s : FmmState} (h : s.heap = []) :
    fmmStep p s = s := by
  unfold fmmStep
  rw [if_pos h]

theorem processNeighbor_frozen (p : FmmParams) (c : ℤ × ℤ) (s : FmmState)
    (d : ℤ × ℤ) : (processNeighbor p c s d).frozen = s.frozen := by
  simp only [processNeighbor]
  split_ifs <;> rfl

theorem processNeighbor_pops (p : FmmParams) (c : ℤ × ℤ) (s : FmmState)
    (d : ℤ × ℤ) : (processNeighbor p c s d).pops = s.pops := by
  simp only [processNeighbor]
  split_ifs <;> rfl

theorem processNeighbor_T_le (p : FmmParams) (c : ℤ × ℤ) (s : FmmState)
    (d : ℤ × ℤ) (i j : ℤ) : (processNeighbor p c s d).T i j ≤ s.T i j := by
  simp only [processNeighbor]
  split_ifs with h1 h2 h3 <;> try dsimp only
  · by_cases hij : i = c.1 + d.1 ∧ j = c.2 + d.2
    · rcases hij with ⟨hi, hj⟩
      subst hi; subst hj
      rw [setGrid_same]
      exact h2.le
    · rw [setGrid_other _ _ hij]
  · by_cases hij : i = c.1 + d.1 ∧ j = c.2 + d.2
    · rcases hij with ⟨hi, hj⟩
      subst hi; subst hj
      rw [setGrid_same]
      exact h2.le
    · rw [setGrid_other _ _ hij]
  · exact le_refl _
  · exact le_refl _

theorem processNeighbor_T_of_frozen (p : FmmParams) (c : ℤ × ℤ)
    (s : FmmState) (d : ℤ × ℤ) (i j : ℤ) (h : s.frozen i j = true) :
    (processNeighbor p c s d).T i j = s.T i j := by
  simp only [processNeighbor]
  split_ifs with h1 h2 h3 <;> try dsimp only
  · have hij : ¬(i = c.1 + d.1 ∧ j = c.2 + d.2) := by
      rintro ⟨hi, hj⟩
      subst hi; subst hj
      rw [h1.2.2.2.2] at h
      exact Bool.false_ne_true h
    rw [setGrid_other _ _ hij]
  · have hij : ¬(i = c.1 + d.1 ∧ j = c.2 + d.2) := by
      rintro ⟨hi, hj⟩
      subst hi; subst hj
      rw [h1.2.2.2.2] at h
      exact Bool.false_ne_true h
    rw [setGrid_other _ _ hij]

theorem foldl_pn_frozen (p : FmmParams) (c : ℤ × ℤ) :
    ∀ (l : List (ℤ × ℤ)) (s : FmmState),
      (l.foldl (processNeighbor p c) s).frozen = s.frozen
  | [], _ => rfl
  | d :: l, s => by
      rw [List.foldl_cons, foldl_pn_frozen p c l, processNeighbor_frozen]

theorem foldl_pn_pops (p : FmmParams) (c : ℤ × ℤ) :
    ∀ (l : List (ℤ × ℤ)) (s : FmmState),
      (l.foldl (processNeighbor p c) s).pops = s.pops
  | [], _ => rfl
  | d :: l, s => by
      rw [List.foldl_cons, foldl_pn_pops p c l, processNeighbor_pops]

theorem foldl_pn_T_le (p : FmmParams) (c : ℤ × ℤ) :
    ∀ (l : List (ℤ × ℤ)) (s : FmmState) (i j : ℤ),
      (l.foldl (processNeighbor p c) s).T i j ≤ s.T i j
  | [], _, _, _ => le_refl _
  | d :: l, s, i, j => by
      rw [List.foldl_cons]
      exact le_trans (foldl_pn_T_le p c l _ i j)
        (processNeighbor_T_le p c s d i j)

theorem foldl_pn_T_of_frozen (p : FmmParams) (c : ℤ × ℤ) :
    ∀ (l : List (ℤ × ℤ)) (s : FmmState) (i j : ℤ),
      s.frozen i j = true → (l.foldl (processNeighbor p c) s).T i j = s.T i j
  | [], _, _, _, _ => rfl
  | d :: l, s, i, j, h => by
      rw [List.foldl_cons,
        foldl_pn_T_of_frozen p c l _ i j
          (by rw [processNeighbor_frozen]; exact h),
        processNeighbor_T_of_frozen p c s d i j h]

theorem setGrid_true_mono (g : ℤ → ℤ → Bool) (y x i j : ℤ)
    (h : g i j = true) : setGrid g y x true i j = true := by
  unfold setGrid
  split_ifs
  · rfl
  · exact h

/-- In one iteration, stored arrival times never increase. -/
theorem fmmStep_T_le (p : FmmParams) (s : FmmState) (i j : ℤ) :
    (fmmStep p s).T i j ≤ s.T i j := by
  simp only [fmmStep]
  split_ifs with h1 h2 <;> try dsimp only
  · exact le_refl _
  · exact le_refl _
  · exact foldl_pn_T_le p _ nbrOffsets _ i j

/-- In one iteration, frozen markers are never cleared. -/
theorem fmmStep_frozen_mono (p : FmmParams) (s : FmmState) (i j : ℤ)
    (h : s.frozen i j = true) : (fmmStep p s).frozen i j = true := by
  simp only [fmmStep]
  split_ifs with h1 h2 <;> try dsimp only
  · exact h
  · exact h
  · rw [foldl_pn_frozen]
    exact setGrid_true_mono _ _ _ _ _ h

/-- In one iteration, the time stored at a frozen cell does not change. -/
theorem fmmStep_T_of_frozen (p : FmmParams) (s : FmmState) (i j : ℤ)
    (h : s.frozen i j = true) : (fmmStep p s).T i j = s.T i j := by
  simp only [fmmStep]
  split_ifs with h1 h2 <;> try dsimp only
  exact foldl_pn_T_of_frozen p _ nbrOffsets _ i j
    (setGrid_true_mono _ _ _ _ _ h)

/-- The solver run: the state after `n` iterations. -/
def fmmIter (p : FmmParams) (sy sx : ℤ) (n : ℕ) : FmmState :=
  (fmmStep p)^[n] (fmmInit p sy sx)

theorem fmmIter_succ (p : FmmParams) (sy sx : ℤ) (n : ℕ) :
    fmmIter p sy sx (n + 1) = fmmStep p (fmmIter p sy sx n) := by
  unfold fmmIter
  rw [Function.iterate_succ_apply']

theorem fmmIter_frozen_mono (p : FmmParams) (sy sx : ℤ) {m n : ℕ}
    (h : m ≤ n) (i j : ℤ) (hf : (fmmIter p sy sx m).frozen i j = true) :
    (fmmIter p sy sx n).frozen i j = true := by
  induction n, h using Nat.le_induction with
  | base => exact hf
  | succ n _ ih => rw [fmmIter_succ]; exact fmmStep_frozen_mono p _ i j ih

theorem fmmIter_T_le (p : FmmParams) (sy sx : ℤ) {m n : ℕ} (h : m ≤ n)
    (i j : ℤ) :
    (fmmIter p sy sx n).T i j ≤ (fmmIter p sy sx m).T i j := by
  induction n, h using Nat.le_induction with
  | base => exact le_refl _
  | succ n _ ih =>
      rw [fmmIter_succ]
      exact le_trans (fmmStep_T_le p _ i j) ih

/-- C4: throughout a `solve_eikonal` run, the stored time of any cell
only decreases from one iteration to the next; once a cell's frozen
marker is set it stays set and the cell's stored time never changes
again; and the freezing transition happens at most once per cell. -/
theorem arrival_times_decrease_frozen_final (p : FmmParams) (sy sx : ℤ)
    (i j : ℤ) :
    (∀ n : ℕ, (fmmIter p sy sx (n + 1)).T i j ≤ (fmmIter p sy sx n).T i j) ∧
    (∀ m n : ℕ, m ≤ n → (fmmIter p sy sx m).frozen i j = true →
      (fmmIter p sy sx n).frozen i j = true ∧
      (fmmIter p sy sx n).T i j = (fmmIter p sy sx m).T i j) ∧
    (∀ m n : ℕ,
      ((fmmIter p sy sx m).frozen i j = false ∧
        (fmmIter p sy sx (m + 1)).frozen i j = true) →
      ((fmmIter p sy sx n).frozen i j = false ∧
        (fmmIter p sy sx (n + 1)).frozen i j = true) → m = n) := by
  refine ⟨fun n => by rw [fmmIter_succ]; exact fmmStep_T_le p _ i j,
    fun m n h hf => ⟨fmmIter_frozen_mono p sy sx h i j hf, ?_⟩,
    fun m n hm hn => ?_⟩
  · induction n, h using Nat.le_induction with
    | base => rfl
    | succ n hmn ih =>
        rw [fmmIter_succ,
          fmmStep_T_of_frozen p _ i j (fmmIter_frozen_mono p sy sx hmn i j hf)]
        exact ih
  · by_contra hne
    rcases Nat.lt_or_ge m n with hlt | hge
    · have : (fmmIter p sy sx n).frozen i j = true :=
        fmmIter_frozen_mono p sy sx hlt i j hm.2
      rw [hn.1] at this
      exact Bool.false_ne_true this
    · have hlt : n < m := lt_of_le_of_ne hge (fun h => hne h.symm)
      have : (fmmIter p sy sx m).frozen i j = true :=
        fmmIter_frozen_mono p sy sx hlt i j hn.2
      rw [hm.1] at this
      exact Bool.false_ne_true this

/-! ## Source validation (or its absence) -/

/-- The error the specification prescribes for an out-of-bounds source. -/
inductive SolverError where
  | invalidSource : SolverError

/-- Modelled from the spec: "InvalidSource: source coordinate outside
grid bounds — fatal, must be rejected before any computation begins."
The checked entry point the specification describes (absent from the
code, which performs no validation). -/
def solveEikonalChecked (ny nx : ℕ) (n_field : ℤ → ℤ → ℝ)
    (source : ℤ × ℤ) (dx : ℝ) : Except SolverError (ℤ → ℤ → Time) :=
  if 0 ≤ source.1 ∧ source.1 < (ny : ℤ) ∧ 0 ≤ source.2 ∧ source.2 < (nx : ℤ)
  then .ok (solve_eikonal ny nx n_field source dx)
  else .error .invalidSource

/-- One iteration on a singleton band: pop its entry, then either discard
it as stale or freeze and update the neighbors. -/
theorem fmmStep_singleton (p : FmmParams) (s : FmmState) (t : Time)
    (y x : ℤ) (h : s.heap = [(t, y, x)]) :
    fmmStep p s =
      if s.frozen (npIdx p.ny y) (npIdx p.nx x) = true then
        { s with heap := [], pops := s.pops ++ [t] }
      else
        nbrOffsets.foldl (processNeighbor p (y, x))
          { s with
              heap := []
              pops := s.pops ++ [t]
              frozen := setGrid s.frozen (npIdx p.ny y) (npIdx p.nx x) true } := by
  simp [fmmStep, h, minIdx, minIdxFrom, removeSwap, dummyEntry]

/-- The wrapped source cell is frozen at time `0` on the first iteration
and keeps that time for the rest of the run. -/
theorem fmm_core_source_zero (p : FmmParams) (sy sx : ℤ) :
    fmm_core p sy sx (npIdx p.ny sy) (npIdx p.nx sx) = ((0 : ℝ) : Time) := by
  have hstep := fmmStep_singleton p (fmmInit p sy sx) ((0 : ℝ) : Time) sy sx rfl
  rw [if_neg (by simp [fmmInit])] at hstep
  have hfr1 : (fmmIter p sy sx 1).frozen (npIdx p.ny sy) (npIdx p.nx sx)
      = true := by
    show (fmmStep p (fmmInit p sy sx)).frozen _ _ = true
    rw [hstep, foldl_pn_frozen]
    exact setGrid_same _ _ _ _
  have hT1 : (fmmIter p sy sx 1).T (npIdx p.ny sy) (npIdx p.nx sx) =
      ((0 : ℝ) : Time) := by
    show (fmmStep p (fmmInit p sy sx)).T _ _ = _
    rw [hstep, foldl_pn_T_of_frozen _ _ _ _ _ _ (by simp [setGrid])]
    simp [fmmInit, setGrid]
  have key : ∀ n : ℕ, 1 ≤ n →
      (fmmIter p sy sx n).T (npIdx p.ny sy) (npIdx p.nx sx) =
        ((0 : ℝ) : Time) := by
    intro n hn
    induction n, hn using Nat.le_induction with
    | base => exact hT1
    | succ n hn ih =>
        rw [fmmIter_succ,
          fmmStep_T_of_frozen p _ _ _ (fmmIter_frozen_mono p sy sx hn _ _ hfr1)]
        exact ih
  show (fmmIter p sy sx (fmmFuel p)).T (npIdx p.ny sy) (npIdx p.nx sx) = _
  exact key _ (by unfold fmmFuel; omega)

/-- C7 (amended): `solve_eikonal` performs no bounds validation — no
`InvalidSource` failure exists in the code.  The initial write `T[sy,sx]`
follows numpy indexing (negative coordinates wrap), the wrapped source
cell is frozen at time `0` on the first iteration, and the returned
field carries time exactly `0` there. -/
theorem solve_eikonal_no_validation (ny nx : ℕ) (f : ℤ → ℤ → ℝ)
    (sy sx : ℤ) (dx : ℝ) :
    solve_eikonal ny nx f (sy, sx) dx (npIdx ny sy) (npIdx nx sx) =
      ((0 : ℝ) : Time) :=
  fmm_core_source_zero ⟨ny, nx, f, dx⟩ sy sx

/-! ## A concrete run with a wrapped (out-of-bounds) source -/

/-- The all-ones slowness field. -/
def onesF : ℤ → ℤ → ℝ := fun _ _ => 1

/-- A 1×2 grid with unit slowness and spacing. -/
def p12 : FmmParams := ⟨1, 2, onesF, 1⟩

/-- Arrival times after initialisation with source `(0, -1)`: the write
wraps to cell `(0, 1)`. -/
def T12a : ℤ → ℤ → Time := setGrid (fun _ _ => (⊤ : Time)) 0 1 ((0 : ℝ) : Time)

/-- Arrival times after the first iteration: cell `(0, 0)` improved. -/
def T12b : ℤ → ℤ → Time := setGrid T12a 0 0 ((1 : ℝ) : Time)

/-- Frozen markers after the first iteration. -/
def fr12a : ℤ → ℤ → Bool := setGrid (fun _ _ => false) 0 1 true

/-- Frozen markers after the second iteration. -/
def fr12b : ℤ → ℤ → Bool := setGrid fr12a 0 0 true

theorem run12_init : fmmInit p12 0 (-1) =
    ⟨T12a, (fun _ _ => false), [(((0 : ℝ) : Time), 0, -1)], []⟩ := by
  unfold fmmInit p12 T12a
  norm_num [npIdx]

theorem run12_sq1 : solve_quadratic T12a onesF 0 0 1 1 2 = ((1 : ℝ) : Time) := by
  have hh : tHoriz T12a 2 0 0 = ((0 : ℝ) : Time) := by
    norm_num [tHoriz, T12a, setGrid]
  have hv : tVert T12a 1 0 0 = (⊤ : Time) := by
    norm_num [tVert, T12a, setGrid]
  unfold solve_quadratic
  rw [hh, hv]
  norm_num [axisCandidate, onesF, ← WithTop.coe_add]

theorem T12a_00 : T12a 0 0 = (⊤ : Time) := by norm_num [T12a, setGrid]

theorem fr12a_00 : fr12a 0 0 = false := by norm_num [fr12a, setGrid]

theorem fr12b_01 : fr12b 0 1 = true := by norm_num [fr12b, fr12a, setGrid]

theorem run12_step1 :
    fmmStep p12 ⟨T12a, (fun _ _ => false), [(((0 : ℝ) : Time), 0, -1)], []⟩ =
      ⟨T12b, fr12a, [(((1 : ℝ) : Time), 0, 0)], [((0 : ℝ) : Time)]⟩ := by
  rw [fmmStep_singleton p12 _ ((0 : ℝ) : Time) 0 (-1) rfl, if_neg (by simp)]
  show nbrOffsets.foldl (processNeighbor p12 (0, -1))
      ⟨T12a, fr12a, [], [((0 : ℝ) : Time)]⟩ = _
  norm_num [nbrOffsets, processNeighbor, p12, run12_sq1, T12a_00, fr12a_00,
    T12b, WithTop.coe_lt_top]

theorem run12_step2 :
    fmmStep p12 ⟨T12b, fr12a, [(((1 : ℝ) : Time), 0, 0)], [((0 : ℝ) : Time)]⟩ =
      ⟨T12b, fr12b, [], [((0 : ℝ) : Time), ((1 : ℝ) : Time)]⟩ := by
  rw [fmmStep_singleton p12 _ ((1 : ℝ) : Time) 0 0 rfl,
    if_neg (by norm_num [p12, npIdx, fr12a_00])]
  show nbrOffsets.foldl (processNeighbor p12 (0, 0))
      ⟨T12b, fr12b, [], [((0 : ℝ) : Time), ((1 : ℝ) : Time)]⟩ = _
  norm_num [nbrOffsets, processNeighbor, p12, fr12b_01]

theorem run12_final : fmm_core p12 0 (-1) = T12b := by
  have h2 : (fmmStep p12)^[2] (fmmInit p12 0 (-1)) =
      ⟨T12b, fr12b, [], [((0 : ℝ) : Time), ((1 : ℝ) : Time)]⟩ := by
    rw [Function.iterate_succ_apply, Function.iterate_succ_apply,
      Function.iterate_zero_apply, run12_init, run12_step1, run12_step2]
  have hfuel : fmmFuel p12 = 14 + 2 := by norm_num [fmmFuel, p12]
  show ((fmmStep p12)^[fmmFuel p12] (fmmInit p12 0 (-1))).T = T12b
  rw [hfuel, Function.iterate_add_apply, h2,
    Function.iterate_fixed (fmmStep_of_empty rfl)]

/-- C7 (counterexample): calling `solve_eikonal` on a 1×2 grid with the
out-of-bounds source `(0, -1)` does not fail: the spec-modelled checked
entry point rejects this source, while the code computes a full
arrival-time field (the source index wraps to `(0, 1)`, which gets time
`0`, and cell `(0, 0)` gets time `1`). -/
theorem solve_eikonal_oob_source_not_rejected :
    solveEikonalChecked 1 2 onesF (0, -1) 1 = .error .invalidSource ∧
    solve_eikonal 1 2 onesF (0, -1) 1 0 0 = ((1 : ℝ) : Time) ∧
    solve_eikonal 1 2 onesF (0, -1) 1 0 1 = ((0 : ℝ) : Time) := by
  refine ⟨by norm_num [solveEikonalChecked], ?_, ?_⟩
  · show (fmm_core p12 0 (-1)) 0 0 = _
    rw [run12_final]
    norm_num [T12b, setGrid]
  · show (fmm_core p12 0 (-1)) 0 1 = _
    rw [run12_final]
    norm_num [T12b, T12a, setGrid]

/-! ## A concrete 2×2 run: the stencil reads unfrozen neighbors -/

/-- The entry the next iteration will pop (leftmost minimal). -/
def popEntry (s : FmmState) : Entry :=
  s.heap.getD (minIdx (s.heap.map Prod.fst)) dummyEntry

/-- When the popped entry's cell is not frozen, the iteration freezes
exactly that cell. -/
theorem fmmStep_frozen_unfrozen_pop (p : FmmParams) (s : FmmState)
    (h : ¬ s.heap = [])
    (hf : s.frozen (npIdx p.ny (popEntry s).2.1) (npIdx p.nx (popEntry s).2.2)
      = false) :
    (fmmStep p s).frozen =
      setGrid s.frozen (npIdx p.ny (popEntry s).2.1)
        (npIdx p.nx (popEntry s).2.2) true := by
  simp only [fmmStep, if_neg h, popEntry] at *
  rw [if_neg (by rw [hf]; exact Bool.false_ne_true)]
  rw [foldl_pn_frozen]

/-- A 2×2 grid with unit slowness and spacing. -/
def p22 : FmmParams := ⟨2, 2, onesF, 1⟩

/-- Arrival times at initialisation (source `(0, 0)`). -/
def T22a : ℤ → ℤ → Time := setGrid (fun _ _ => (⊤ : Time)) 0 0 ((0 : ℝ) : Time)

/-- After the first neighbor update of iteration 1 (cell `(1, 0)`). -/
def T22b : ℤ → ℤ → Time := setGrid T22a 1 0 ((1 : ℝ) : Time)

/-- After the second neighbor update of iteration 1 (cell `(0, 1)`). -/
def T22c : ℤ → ℤ → Time := setGrid T22b 0 1 ((1 : ℝ) : Time)

/-- Frozen markers after iteration 1. -/
def fr22a : ℤ → ℤ → Bool := setGrid (fun _ _ => false) 0 0 true

/-- The state after iteration 1 of the 2×2 run. -/
def s22 : FmmState :=
  ⟨T22c, fr22a, [(((1 : ℝ) : Time), 1, 0), (((1 : ℝ) : Time), 0, 1)],
    [((0 : ℝ) : Time)]⟩

theorem T22a_00 : T22a 0 0 = ((0 : ℝ) : Time) := by norm_num [T22a, setGrid]

theorem T22a_10 : T22a 1 0 = (⊤ : Time) := by norm_num [T22a, setGrid]

theorem T22a_11 : T22a 1 1 = (⊤ : Time) := by norm_num [T22a, setGrid]

theorem T22b_00 : T22b 0 0 = ((0 : ℝ) : Time) := by
  norm_num [T22b, setGrid, T22a_00]

theorem T22b_01 : T22b 0 1 = (⊤ : Time) := by
  norm_num [T22b, T22a, setGrid]

theorem T22b_11 : T22b 1 1 = (⊤ : Time) := by
  norm_num [T22b, setGrid, T22a_11]

theorem fr22a_10 : fr22a 1 0 = false := by norm_num [fr22a, setGrid]

theorem fr22a_01 : fr22a 0 1 = false := by norm_num [fr22a, setGrid]

theorem run22_sq10 : solve_quadratic T22a onesF 1 0 1 2 2 = ((1 : ℝ) : Time) := by
  have hh : tHoriz T22a 2 1 0 = (⊤ : Time) := by
    norm_num [tHoriz, T22a_11]
  have hv : tVert T22a 2 1 0 = ((0 : ℝ) : Time) := by
    norm_num [tVert, T22a_00]
  unfold solve_quadratic
  rw [hh, hv]
  norm_num [axisCandidate, onesF, ← WithTop.coe_add]

theorem run22_sq01 : solve_quadratic T22b onesF 0 1 1 2 2 = ((1 : ℝ) : Time) := by
  have hh : tHoriz T22b 2 0 1 = ((0 : ℝ) : Time) := by
    norm_num [tHoriz, T22b_00]
  have hv : tVert T22b 2 0 1 = (⊤ : Time) := by
    norm_num [tVert, T22b_11]
  unfold solve_quadratic
  rw [hh, hv]
  norm_num [axisCandidate, onesF, ← WithTop.coe_add]

theorem run22_init : fmmInit p22 0 0 =
    ⟨T22a, (fun _ _ => false), [(((0 : ℝ) : Time), 0, 0)], []⟩ := by
  unfold fmmInit p22 T22a
  norm_num [npIdx]

theorem T22b_def : setGrid T22a 1 0 (1 : Time) = T22b := rfl

theorem T22c_def : setGrid T22b 0 1 (1 : Time) = T22c := rfl

theorem one_lt_top_Time : (1 : Time) < ⊤ := WithTop.coe_lt_top (1 : ℝ)

theorem run22_step1 :
    fmmStep p22 ⟨T22a, (fun _ _ => false), [(((0 : ℝ) : Time), 0, 0)], []⟩ =
      s22 := by
  rw [fmmStep_singleton p22 _ ((0 : ℝ) : Time) 0 0 rfl, if_neg (by simp)]
  show nbrOffsets.foldl (processNeighbor p22 (0, 0))
      ⟨T22a, fr22a, [], [((0 : ℝ) : Time)]⟩ = _
  norm_num [nbrOffsets, processNeighbor, p22, run22_sq10, run22_sq01,
    T22a_10, fr22a_10, fr22a_01, T22b_01, s22, T22b_def, T22c_def,
    WithTop.coe_lt_top, one_lt_top_Time]

/-- C2 (counterexample): on the 2×2 unit grid, after iteration 1 the
band holds `(1,(1,0))` and `(1,(0,1))`; iteration 2 pops and freezes
cell `(1,0)`, and the stencil update for its neighbor `(1,1)` computes
`t_vert = 1` — the tentative time of the *unfrozen* cell `(0,1)` — while
the spec's frozen-only vertical minimum is `+∞`. -/
theorem stencil_unfrozen_neighbor_cex :
    fmmStep p22 (fmmInit p22 0 0) = s22 ∧
    popEntry s22 = (((1 : ℝ) : Time), 1, 0) ∧
    s22.frozen 1 0 = false ∧
    (fmmStep p22 s22).frozen 1 0 = true ∧
    s22.frozen 0 1 = false ∧
    (fmmStep p22 s22).frozen 0 1 = false ∧
    tVert s22.T 2 1 1 = ((1 : ℝ) : Time) ∧
    tVertFrozen s22.T (fmmStep p22 s22).frozen 2 1 1 = (⊤ : Time) := by
  have hpop : popEntry s22 = (((1 : ℝ) : Time), 1, 0) := by
    norm_num [popEntry, s22, minIdx, minIdxFrom]
  have hfr : (fmmStep p22 s22).frozen = setGrid fr22a 1 0 true := by
    have := fmmStep_frozen_unfrozen_pop p22 s22 (by simp [s22])
      (by rw [hpop]; norm_num [p22, npIdx, s22, fr22a_10])
    rw [hpop] at this
    simpa [p22, npIdx, s22] using this
  refine ⟨by rw [run22_init, run22_step1], hpop, by simp [s22, fr22a_10], ?_,
    by simp [s22, fr22a_01], ?_, ?_, ?_⟩
  · rw [hfr, setGrid_same]
  · rw [hfr, setGrid_other _ _ (by norm_num), fr22a_01]
  · show tVert T22c 2 1 1 = _
    norm_num [tVert, T22c, T22b, T22a, setGrid]
  · rw [hfr]
    show tVertFrozen T22c _ 2 1 1 = _
    norm_num [tVertFrozen, setGrid, fr22a]

/-! ## Termination: the band empties within the iteration budget -/

theorem minIdxFrom_lt : ∀ (l : List Time) (i : ℕ) (mt : Time) (best : ℕ),
    best < i → minIdxFrom l i mt best < i + l.length
  | [], _, _, _, h => by simpa using h
  | t :: rest, i, mt, best, h => by
      unfold minIdxFrom
      split_ifs with hlt
      · have := minIdxFrom_lt rest (i + 1) t i (Nat.lt_succ_self i)
        simpa [Nat.add_comm, Nat.add_assoc, Nat.add_left_comm] using this
      · have := minIdxFrom_lt rest (i + 1) mt best (Nat.lt_succ_of_lt h)
        simpa [Nat.add_comm, Nat.add_assoc, Nat.add_left_comm] using this

theorem minIdx_lt (l : List Time) (h : l ≠ []) : minIdx l < l.length := by
  cases l with
  | nil => exact absurd rfl h
  | cons t rest =>
      have := minIdxFrom_lt rest 1 t 0 Nat.one_pos
      simpa [minIdx, Nat.add_comm] using this

theorem getLastD_mem {α : Type} (l : List α) (d : α) (h : l ≠ []) :
    l.getLastD d ∈ l := by
  cases l with
  | nil => exact absurd rfl h
  | cons b t =>
      rw [List.getLastD_eq_getLast?, List.getLast?_eq_getLast (b :: t) (by simp)]
      exact List.getLast_mem _

theorem getD_mem {α : Type} (l : List α) (i : ℕ) (d : α) (h : i < l.length) :
    l.getD i d ∈ l := by
  rw [List.getD_eq_getElem l d h]
  exact List.getElem_mem h

theorem removeSwap_length {α : Type} (l : List α) (i : ℕ) (d : α) :
    (removeSwap l i d).length = l.length - 1 := by
  unfold removeSwap
  rw [List.length_dropLast, List.length_set]

theorem removeSwap_subset {α : Type} (l : List α) (i : ℕ) (d : α)
    (h : l ≠ []) : ∀ a ∈ removeSwap l i d, a ∈ l := by
  intro a ha
  unfold removeSwap at ha
  rcases List.mem_or_eq_of_mem_set (List.dropLast_subset _ ha) with h1 | h1
  · exact h1
  · rw [h1]
    exact getLastD_mem l d h

/-- An entry's coordinates lie inside the grid. -/
def entryInBounds (p : FmmParams) (e : Entry) : Prop :=
  0 ≤ e.2.1 ∧ e.2.1 < (p.ny : ℤ) ∧ 0 ≤ e.2.2 ∧ e.2.2 < (p.nx : ℤ)

/-- Every band entry's coordinates lie inside the grid. -/
def heapInBounds (p : FmmParams) (s : FmmState) : Prop :=
  ∀ e ∈ s.heap, entryInBounds p e

/-- The grid, as a finite set of coordinates. -/
def gridCells (p : FmmParams) : Finset (ℤ × ℤ) :=
  Finset.Icc 0 ((p.ny : ℤ) - 1) ×ˢ Finset.Icc 0 ((p.nx : ℤ) - 1)

theorem gridCells_card (p : FmmParams) :
    (gridCells p).card = p.ny * p.nx := by
  unfold gridCells
  rw [Finset.card_product]
  simp [Int.card_Icc]

theorem mem_gridCells {p : FmmParams} {c : ℤ × ℤ} :
    c ∈ gridCells p ↔
      0 ≤ c.1 ∧ c.1 ≤ (p.ny : ℤ) - 1 ∧ 0 ≤ c.2 ∧ c.2 ≤ (p.nx : ℤ) - 1 := by
  unfold gridCells
  rw [Finset.mem_product, Finset.mem_Icc, Finset.mem_Icc]
  tauto

/-- Number of in-grid cells not yet frozen. -/
def unfrozenCard (p : FmmParams) (s : FmmState) : ℕ :=
  ((gridCells p).filter (fun c => s.frozen c.1 c.2 = false)).card

/-- Strictly decreasing measure for the solver loop. -/
def fmmMeasure (p : FmmParams) (s : FmmState) : ℕ :=
  5 * unfrozenCard p s + s.heap.length

theorem foldl_pn_heap_grow (p : FmmParams) (c : ℤ × ℤ) :
    ∀ (l : List (ℤ × ℤ)) (s : FmmState),
      (l.foldl (processNeighbor p c) s).heap.length ≤ s.heap.length + l.length
  | [], _ => le_refl _
  | d :: l, s => by
      rw [List.foldl_cons]
      refine le_trans (foldl_pn_heap_grow p c l _) ?_
      have hd : (processNeighbor p c s d).heap.length ≤ s.heap.length + 1 := by
        simp only [processNeighbor]
        split_ifs <;> simp
      simp only [List.length_cons]
      omega

theorem foldl_pn_heap_mem (p : FmmParams) (c : ℤ × ℤ) :
    ∀ (l : List (ℤ × ℤ)) (s : FmmState) (e : Entry),
      e ∈ (l.foldl (processNeighbor p c) s).heap →
        e ∈ s.heap ∨ entryInBounds p e
  | [], _, _, he => Or.inl he
  | d :: l, s, e, he => by
      rw [List.foldl_cons] at he
      rcases foldl_pn_heap_mem p c l _ e he with h1 | h1
      · revert h1
        simp only [processNeighbor]
        split_ifs with hb hlt hc
        · intro h1
          rcases List.mem_append.mp h1 with h2 | h2
          · exact Or.inl h2
          · rw [List.mem_singleton.mp h2]
            exact Or.inr ⟨hb.1, hb.2.1, hb.2.2.1, hb.2.2.2.1⟩
        · exact fun h1 => Or.inl h1
        · exact fun h1 => Or.inl h1
        · exact fun h1 => Or.inl h1
      · exact Or.inr h1

theorem unfrozenCard_freeze_lt (p : FmmParams) (s : FmmState) (y x : ℤ)
    (hy : 0 ≤ y) (hy2 : y < (p.ny : ℤ)) (hx : 0 ≤ x) (hx2 : x < (p.nx : ℤ))
    (hf : s.frozen y x = false) :
    ((gridCells p).filter
        (fun c => setGrid s.frozen y x true c.1 c.2 = false)).card <
      unfrozenCard p s := by
  have hsub : (gridCells p).filter
      (fun c => setGrid s.frozen y x true c.1 c.2 = false) ⊆
      (gridCells p).filter (fun c => s.frozen c.1 c.2 = false) := by
    intro c hc
    rw [Finset.mem_filter] at hc ⊢
    refine ⟨hc.1, ?_⟩
    by_cases hcy : c.1 = y ∧ c.2 = x
    · exfalso
      have h2 := hc.2
      rw [setGrid, if_pos hcy] at h2
      exact Bool.noConfusion h2
    · have h2 := hc.2
      rw [setGrid_other _ _ hcy] at h2
      exact h2
  have hmem : (y, x) ∈ (gridCells p).filter
      (fun c => s.frozen c.1 c.2 = false) := by
    rw [Finset.mem_filter]
    exact ⟨mem_gridCells.mpr ⟨hy, by omega, hx, by omega⟩, hf⟩
  have hnot : (y, x) ∉ (gridCells p).filter
      (fun c => setGrid s.frozen y x true c.1 c.2 = false) := by
    rw [Finset.mem_filter]
    rintro ⟨-, hcon⟩
    rw [setGrid_same] at hcon
    exact Bool.noConfusion hcon
  exact Finset.card_lt_card
    ((Finset.ssubset_iff_of_subset hsub).mpr ⟨(y, x), hmem, hnot⟩)

theorem bool_eq_false_of_ne_true {b : Bool} (h : ¬ b = true) : b = false := by
  cases b
  · rfl
  · exact absurd rfl h

theorem fmmStep_measure_lt (p : FmmParams) (s : FmmState)
    (h : ¬ s.heap = []) (hin : heapInBounds p s) :
    fmmMeasure p (fmmStep p s) < fmmMeasure p s := by
  have hlen : 1 ≤ s.heap.length := by
    cases hl : s.heap with
    | nil => exact absurd hl h
    | cons a l => simp
  have hmi : minIdx (s.heap.map Prod.fst) < s.heap.length := by
    have := minIdx_lt (s.heap.map Prod.fst) (by simpa using h)
    simpa using this
  have hpe : s.heap.getD (minIdx (s.heap.map Prod.fst)) dummyEntry ∈ s.heap :=
    getD_mem _ _ _ hmi
  have hbd := hin _ hpe
  simp only [fmmStep, if_neg h]
  set e := s.heap.getD (minIdx (s.heap.map Prod.fst)) dummyEntry with he
  have hny : npIdx p.ny e.2.1 = e.2.1 := npIdx_of_nonneg hbd.1
  have hnx : npIdx p.nx e.2.2 = e.2.2 := npIdx_of_nonneg hbd.2.2.1
  split_ifs with hf
  · unfold fmmMeasure unfrozenCard
    simp only [removeSwap_length]
    omega
  · have hfrozen : s.frozen e.2.1 e.2.2 = false := by
      have := bool_eq_false_of_ne_true hf
      rwa [hny, hnx] at this
    have hu : unfrozenCard p
        (nbrOffsets.foldl (processNeighbor p (e.2.1, e.2.2))
          { s with
              heap := removeSwap s.heap (minIdx (s.heap.map Prod.fst)) dummyEntry
              pops := s.pops ++ [e.1]
              frozen := setGrid s.frozen (npIdx p.ny e.2.1) (npIdx p.nx e.2.2)
                true }) < unfrozenCard p s := by
      unfold unfrozenCard
      rw [foldl_pn_frozen]
      show (Finset.filter _ _).card < _
      rw [hny, hnx]
      exact unfrozenCard_freeze_lt p s e.2.1 e.2.2 hbd.1 hbd.2.1 hbd.2.2.1
        hbd.2.2.2 hfrozen
    have hh : (nbrOffsets.foldl (processNeighbor p (e.2.1, e.2.2))
        { s with
            heap := removeSwap s.heap (minIdx (s.heap.map Prod.fst)) dummyEntry
            pops := s.pops ++ [e.1]
            frozen := setGrid s.frozen (npIdx p.ny e.2.1) (npIdx p.nx e.2.2)
              true }).heap.length ≤ s.heap.length - 1 + 4 := by
      have := foldl_pn_heap_grow p (e.2.1, e.2.2) nbrOffsets
        { s with
            heap := removeSwap s.heap (minIdx (s.heap.map Prod.fst)) dummyEntry
            pops := s.pops ++ [e.1]
            frozen := setGrid s.frozen (npIdx p.ny e.2.1) (npIdx p.nx e.2.2)
              true }
      simpa [removeSwap_length, nbrOffsets] using this
    unfold fmmMeasure
    omega

theorem fmmStep_heapInBounds (p : FmmParams) (s : FmmState)
    (hin : heapInBounds p s) : heapInBounds p (fmmStep p s) := by
  by_cases h : s.heap = []
  · rw [fmmStep_of_empty h]
    exact hin
  · simp only [fmmStep, if_neg h]
    split_ifs with hf
    · intro e he
      exact hin _ (removeSwap_subset _ _ _ h _ he)
    · intro e he
      rcases foldl_pn_heap_mem p _ nbrOffsets _ e he with h1 | h1
      · exact hin _ (removeSwap_subset _ _ _ h _ h1)
      · exact h1

theorem fmm_heap_empties (p : FmmParams) :
    ∀ (k : ℕ) (s : FmmState), heapInBounds p s → fmmMeasure p s ≤ k →
      ((fmmStep p)^[k] s).heap = [] := by
  intro k
  induction k with
  | zero =>
      intro s _ hm
      have : s.heap.length = 0 := by
        unfold fmmMeasure at hm
        omega
      exact List.length_eq_zero.mp this
  | succ k ih =>
      intro s hin hm
      by_cases h : s.heap = []
      · rw [Function.iterate_fixed (fmmStep_of_empty h)]
        exact h
      · rw [Function.iterate_succ_apply]
        exact ih (fmmStep p s) (fmmStep_heapInBounds p s hin)
          (by have := fmmStep_measure_lt p s h hin; omega)

theorem fmmInit_measure (p : FmmParams) (sy sx : ℤ) :
    fmmMeasure p (fmmInit p sy sx) = 5 * (p.ny * p.nx) + 1 := by
  unfold fmmMeasure unfrozenCard fmmInit
  simp only []
  have : ((gridCells p).filter (fun _ => (false = false))).card =
      (gridCells p).card := by
    congr 1
    apply Finset.filter_true_of_mem
    intro c _
    rfl
  show 5 * ((gridCells p).filter (fun _ => (false = false))).card +
    [(((0 : ℝ) : Time), sy, sx)].length = 5 * (p.ny * p.nx) + 1
  rw [this, gridCells_card]
  simp

theorem fmmIter_heap_empty (p : FmmParams) (sy sx : ℤ)
    (h1 : 0 ≤ sy) (h2 : sy < (p.ny : ℤ)) (h3 : 0 ≤ sx) (h4 : sx < (p.nx : ℤ)) :
    (fmmIter p sy sx (fmmFuel p)).heap = [] := by
  apply fmm_heap_empties
  · intro e he
    rcases List.mem_singleton.mp he with rfl
    exact ⟨h1, h2, h3, h4⟩
  · rw [fmmInit_measure]
    unfold fmmFuel
    omega

theorem fmmIter_const_after_fuel (p : FmmParams) (sy sx : ℤ)
    (h1 : 0 ≤ sy) (h2 : sy < (p.ny : ℤ)) (h3 : 0 ≤ sx) (h4 : sx < (p.nx : ℤ))
    {n : ℕ} (hn : fmmFuel p ≤ n) :
    fmmIter p sy sx n = fmmIter p sy sx (fmmFuel p) := by
  have : n = (n - fmmFuel p) + fmmFuel p := by omega
  rw [this]
  show (fmmStep p)^[n - fmmFuel p + fmmFuel p] (fmmInit p sy sx) = _
  rw [Function.iterate_add_apply]
  exact Function.iterate_fixed
    (fmmStep_of_empty (fmmIter_heap_empty p sy sx h1 h2 h3 h4)) _

theorem fmm_core_eq_iter (p : FmmParams) (sy sx : ℤ) :
    fmm_core p sy sx = (fmmIter p sy sx (fmmFuel p)).T := rfl

/-- C6: for a valid source the returned field carries time exactly `0`
at the source, and a cell holds `+∞` in the returned field precisely
when it was never assigned a finite time at any point of the run. -/
theorem source_exact_zero_unreached_inf (p : FmmParams) (sy sx : ℤ)
    (h1 : 0 ≤ sy) (h2 : sy < (p.ny : ℤ)) (h3 : 0 ≤ sx) (h4 : sx < (p.nx : ℤ)) :
    fmm_core p sy sx sy sx = ((0 : ℝ) : Time) ∧
    ∀ i j : ℤ, (fmm_core p sy sx i j = ⊤ ↔
      ∀ n : ℕ, (fmmIter p sy sx n).T i j = ⊤) := by
  constructor
  · have := fmm_core_source_zero p sy sx
    rwa [npIdx_of_nonneg h1, npIdx_of_nonneg h3] at this
  · intro i j
    constructor
    · intro htop n
      rcases le_or_lt n (fmmFuel p) with hn | hn
      · have hle := fmmIter_T_le p sy sx hn i j
        rw [fmm_core_eq_iter] at htop
        rw [htop] at hle
        exact top_le_iff.mp hle
      · rw [fmmIter_const_after_fuel p sy sx h1 h2 h3 h4 hn.le]
        rw [fmm_core_eq_iter] at htop
        exact htop
    · intro hall
      rw [fmm_core_eq_iter]
      exact hall (fmmFuel p)

/-- Witness for `source_exact_zero_unreached_inf` on the 1×2 unit grid
with the in-bounds source `(0, 0)`. -/
theorem source_exact_zero_unreached_inf_witness :
    ((0 : ℤ) ≤ 0 ∧ (0 : ℤ) < (p12.ny : ℤ) ∧ (0 : ℤ) ≤ 0 ∧
      (0 : ℤ) < (p12.nx : ℤ)) ∧
    (fmm_core p12 0 0 0 0 = ((0 : ℝ) : Time) ∧
      ∀ i j : ℤ, (fmm_core p12 0 0 i j = ⊤ ↔
        ∀ n : ℕ, (fmmIter p12 0 0 n).T i j = ⊤)) := by
  have hb : (0 : ℤ) ≤ 0 ∧ (0 : ℤ) < (p12.ny : ℤ) ∧ (0 : ℤ) ≤ 0 ∧
      (0 : ℤ) < (p12.nx : ℤ) := by norm_num [p12]
  exact ⟨hb, source_exact_zero_unreached_inf p12 0 0 hb.1 hb.2.1 hb.2.2.1
    hb.2.2.2⟩

/-! ## Ray tracer: termination, bounds, first point, stop causes -/

/-- A continuous coordinate lies inside `[0, ny) × [0, nx)`. -/
def inGrid (ny nx : ℕ) (q : ℝ × ℝ) : Prop :=
  0 ≤ q.1 ∧ q.1 < (ny : ℝ) ∧ 0 ≤ q.2 ∧ q.2 < (nx : ℝ)

theorem traceLoopR_fst (T : ℤ → ℤ → ℝ) (ny nx : ℕ) (sy sx step : ℝ) :
    ∀ (k : ℕ) (y x : ℝ),
      (traceLoopR T ny nx sy sx step k y x).1 =
        traceLoop T ny nx sy sx step k y x
  | 0, _, _ => rfl
  | k + 1, y, x => by
      simp only [traceLoopR, traceLoop]
      split_ifs <;> simp [traceLoopR_fst T ny nx sy sx step k]

theorem traceLoop_length (T : ℤ → ℤ → ℝ) (ny nx : ℕ) (sy sx step : ℝ) :
    ∀ (k : ℕ) (y x : ℝ),
      (traceLoop T ny nx sy sx step k y x).length ≤ k
  | 0, _, _ => le_refl _
  | k + 1, y, x => by
      simp only [traceLoop]
      split_ifs
      · simp
      · simp
      · simp
      · simp only [List.length_cons]
        exact Nat.succ_le_succ (traceLoop_length T ny nx sy sx step k _ _)

theorem traceLoop_mem_inGrid (T : ℤ → ℤ → ℝ) (ny nx : ℕ) (sy sx step : ℝ) :
    ∀ (k : ℕ) (y x : ℝ) (q : ℝ × ℝ),
      q ∈ traceLoop T ny nx sy sx step k y x → inGrid ny nx q
  | 0, _, _, _, hq => by simp [traceLoop] at hq
  | k + 1, y, x, q, hq => by
      simp only [traceLoop] at hq
      split_ifs at hq with h1 h2 h3
      · simp at hq
      · simp at hq
      · rw [List.mem_singleton] at hq
        subst hq
        push_neg at h2
        exact ⟨h2.1, h2.2.1, h2.2.2.1, h2.2.2.2⟩
      · rcases List.mem_cons.mp hq with h4 | h4
        · subst h4
          push_neg at h2
          exact ⟨h2.1, h2.2.1, h2.2.2.1, h2.2.2.2⟩
        · exact traceLoop_mem_inGrid T ny nx sy sx step k _ _ q h4

theorem traceLoopR_fuelOut_length (T : ℤ → ℤ → ℝ) (ny nx : ℕ)
    (sy sx step : ℝ) :
    ∀ (k : ℕ) (y x : ℝ),
      (traceLoopR T ny nx sy sx step k y x).2 = .fuelOut →
        (traceLoopR T ny nx sy sx step k y x).1.length = k
  | 0, _, _, _ => rfl
  | k + 1, y, x, h => by
      simp only [traceLoopR] at h ⊢
      split_ifs at h ⊢ with h1 h2 h3
      any_goals (simp at h)
      dsimp only at h ⊢
      rw [List.length_cons,
        traceLoopR_fuelOut_length T ny nx sy sx step k _ _ h]

theorem traceLoopR_nearSource_last (T : ℤ → ℤ → ℝ) (ny nx : ℕ)
    (sy sx step : ℝ) :
    ∀ (k : ℕ) (y x : ℝ),
      (traceLoopR T ny nx sy sx step k y x).2 = .nearSource →
        ∃ l : ℝ × ℝ,
          ((y, x) :: (traceLoopR T ny nx sy sx step k y x).1).getLast? =
            some l ∧
          Real.sqrt ((l.1 - sy) ^ 2 + (l.2 - sx) ^ 2) < step * 2
  | 0, _, _, h => by simp [traceLoopR] at h
  | k + 1, y, x, h => by
      simp only [traceLoopR] at h ⊢
      split_ifs at h ⊢ with h1 h2 h3
      any_goals (simp at h)
      · exact ⟨(nextY T ny nx step y x, nextX T ny nx step y x), by rfl, h3⟩
      · dsimp only
        rcases traceLoopR_nearSource_last T ny nx sy sx step k _ _ h with
          ⟨l, hl, hd⟩
        refine ⟨l, ?_, hd⟩
        rw [List.getLast?_cons_cons]
        exact hl

theorem traceLoopR_gradSmall_last (T : ℤ → ℤ → ℝ) (ny nx : ℕ)
    (sy sx step : ℝ) :
    ∀ (k : ℕ) (y x : ℝ),
      (traceLoopR T ny nx sy sx step k y x).2 = .gradSmall →
        ∃ l : ℝ × ℝ,
          ((y, x) :: (traceLoopR T ny nx sy sx step k y x).1).getLast? =
            some l ∧
          gradNorm T ny nx l.1 l.2 < 1 / 10000000000
  | 0, _, _, h => by simp [traceLoopR] at h
  | k + 1, y, x, h => by
      simp only [traceLoopR] at h ⊢
      split_ifs at h ⊢ with h1 h2 h3
      any_goals (simp at h)
      · exact ⟨(y, x), by rfl, h1⟩
      · dsimp only
        rcases traceLoopR_gradSmall_last T ny nx sy sx step k _ _ h with
          ⟨l, hl, hd⟩
        refine ⟨l, ?_, hd⟩
        rw [List.getLast?_cons_cons]
        exact hl

theorem traceLoopR_leftGrid_out (T : ℤ → ℤ → ℝ) (ny nx : ℕ)
    (sy sx step : ℝ) :
    ∀ (k : ℕ) (y x : ℝ) (q : ℝ × ℝ),
      (traceLoopR T ny nx sy sx step k y x).2 = .leftGrid q →
        ¬ inGrid ny nx q
  | 0, _, _, _, h => by simp [traceLoopR] at h
  | k + 1, y, x, q, h => by
      simp only [traceLoopR] at h
      split_ifs at h with h1 h2 h3
      any_goals (simp at h)
      case _ =>
        rw [show q = (nextY T ny nx step y x, nextX T ny nx step y x) from
          h.symm]
        rintro ⟨hb1, hb2, hb3, hb4⟩
        rcases h2 with h2 | h2 | h2 | h2
        · exact absurd hb1 (not_le.mpr h2)
        · exact absurd h2 (not_le.mpr hb2)
        · exact absurd hb3 (not_le.mpr h2)
        · exact absurd h2 (not_le.mpr hb4)
      case _ =>
        exact traceLoopR_leftGrid_out T ny nx sy sx step k _ _ q h

/-- The four stop causes are exhaustive. -/
theorem traceReason_cases (r : TraceReason) :
    r = .gradSmall ∨ (∃ q, r = .leftGrid q) ∨ r = .nearSource ∨
      r = .fuelOut := by
  cases r with
  | gradSmall => exact Or.inl rfl
  | leftGrid q => exact Or.inr (Or.inl ⟨q, rfl⟩)
  | nearSource => exact Or.inr (Or.inr (Or.inl rfl))
  | fuelOut => exact Or.inr (Or.inr (Or.inr rfl))

/-- C8 (amended): ray tracing terminates within `maxSteps` (the returned
path has at most 30000 points) and every coordinate of the path *after
the first* lies inside `[0, rows) × [0, cols)`; the first point is the
verbatim target and is subject to no bounds check. -/
theorem trace_ray_bounded (T : ℤ → ℤ → ℝ) (ny nx : ℕ)
    (target source : ℝ × ℝ) (step : ℝ) :
    (trace_ray T ny nx target source step).length ≤ 30000 ∧
    ∀ q ∈ (trace_ray T ny nx target source step).tail, inGrid ny nx q := by
  constructor
  · show ((target.1, target.2) ::
      traceLoop T ny nx source.1 source.2 step (30000 - 1) target.1
        target.2).length ≤ 30000
    rw [List.length_cons]
    have := traceLoop_length T ny nx source.1 source.2 step (30000 - 1)
      target.1 target.2
    omega
  · intro q hq
    exact traceLoop_mem_inGrid T ny nx source.1 source.2 step (30000 - 1)
      target.1 target.2 q hq

/-- C8 (counterexample): with the out-of-grid target `(-5, -5)` on a 2×2
field, the returned path contains the coordinate `(-5, -5)`, which lies
outside `[0, 2) × [0, 2)` — the first path point is the verbatim target. -/
theorem trace_ray_oob_point_cex :
    ((-5 : ℝ), (-5 : ℝ)) ∈
      trace_ray (fun _ _ => 0) 2 2 (-5, -5) (0, 0) (1 / 2) ∧
    ¬ inGrid 2 2 ((-5 : ℝ), (-5 : ℝ)) := by
  constructor
  · show ((-5 : ℝ), (-5 : ℝ)) ∈ ((-5 : ℝ), (-5 : ℝ)) :: _
    exact List.mem_cons_self _ _
  · rintro ⟨hb, -⟩
    norm_num at hb

/-- C10: the returned path is never empty and its first point is exactly
the given target coordinates — no clamping or bounds check is applied to
it, so an out-of-grid target appears verbatim as the first path point. -/
theorem trace_ray_first_is_target (T : ℤ → ℤ → ℝ) (ny nx : ℕ)
    (target source : ℝ × ℝ) (step : ℝ) :
    trace_ray T ny nx target source step ≠ [] ∧
    (trace_ray T ny nx target source step).head? = some target := by
  refine ⟨List.cons_ne_nil _ _, ?_⟩
  show some (target.1, target.2) = some target
  simp

/-- C9: ray tracing always returns a path (the instrumented run computes
the same path), its integration loop stops only for one of the four
reasons — vanishing gradient, leaving the grid, proximity to the source,
or exhausting the step budget — and each stop reason yields a normally
returned path: on `leftGrid` the offending position is out of bounds and
not part of the path; on `nearSource` the final path point is within
`2·step` of the source; on `gradSmall` the gradient norm at the final
path point is below the threshold; on `fuelOut` the path has exactly
`maxSteps` points. -/
theorem trace_ray_never_fails_stop_causes (T : ℤ → ℤ → ℝ) (ny nx : ℕ)
    (ty tx sy sx step : ℝ) :
    trace_ray T ny nx (ty, tx) (sy, sx) step =
      (traceRun T ny nx ty tx sy sx step 30000).1 ∧
    ((traceRun T ny nx ty tx sy sx step 30000).2 = .gradSmall ∨
      (∃ q, (traceRun T ny nx ty tx sy sx step 30000).2 = .leftGrid q) ∨
      (traceRun T ny nx ty tx sy sx step 30000).2 = .nearSource ∨
      (traceRun T ny nx ty tx sy sx step 30000).2 = .fuelOut) ∧
    (∀ q, (traceRun T ny nx ty tx sy sx step 30000).2 = .leftGrid q →
      ¬ inGrid ny nx q ∧
      q ∉ (traceRun T ny nx ty tx sy sx step 30000).1.tail) ∧
    ((traceRun T ny nx ty tx sy sx step 30000).2 = .nearSource →
      ∃ l, (traceRun T ny nx ty tx sy sx step 30000).1.getLast? = some l ∧
        Real.sqrt ((l.1 - sy) ^ 2 + (l.2 - sx) ^ 2) < step * 2) ∧
    ((traceRun T ny nx ty tx sy sx step 30000).2 = .gradSmall →
      ∃ l, (traceRun T ny nx ty tx sy sx step 30000).1.getLast? = some l ∧
        gradNorm T ny nx l.1 l.2 < 1 / 10000000000) ∧
    ((traceRun T ny nx ty tx sy sx step 30000).2 = .fuelOut →
      (traceRun T ny nx ty tx sy sx step 30000).1.length = 30000) := by
  refine ⟨?_, traceReason_cases _, fun q hq => ⟨?_, ?_⟩, fun h => ?_,
    fun h => ?_, fun h => ?_⟩
  · show (ty, tx) :: traceLoop T ny nx sy sx step (30000 - 1) ty tx =
      (ty, tx) :: (traceLoopR T ny nx sy sx step (30000 - 1) ty tx).1
    rw [traceLoopR_fst]
  · exact traceLoopR_leftGrid_out T ny nx sy sx step (30000 - 1) ty tx q hq
  · show q ∉ (traceLoopR T ny nx sy sx step (30000 - 1) ty tx).1
    rw [traceLoopR_fst]
    intro hmem
    exact traceLoopR_leftGrid_out T ny nx sy sx step (30000 - 1) ty tx q hq
      (traceLoop_mem_inGrid T ny nx sy sx step (30000 - 1) ty tx q hmem)
  · exact traceLoopR_nearSource_last T ny nx sy sx step (30000 - 1) ty tx h
  · exact traceLoopR_gradSmall_last T ny nx sy sx step (30000 - 1) ty tx h
  · show ((ty, tx) ::
      (traceLoopR T ny nx sy sx step (30000 - 1) ty tx).1).length = 30000
    rw [List.length_cons,
      traceLoopR_fuelOut_length T ny nx sy sx step (30000 - 1) ty tx h]

/-! ## Instantiation witnesses -/

/-- Witness for `stencil_axis_minima` on the 1×2 initial field at `(0, 0)`. -/
theorem stencil_axis_minima_witness :
    tHoriz T12a 2 0 0 =
      min (if 0 < (0 : ℤ) then T12a 0 (0 - 1) else ⊤)
        (if (0 : ℤ) < ((2 : ℕ) : ℤ) - 1 then T12a 0 (0 + 1) else ⊤) ∧
    tVert T12a 1 0 0 =
      min (if 0 < (0 : ℤ) then T12a (0 - 1) 0 else ⊤)
        (if (0 : ℤ) < ((1 : ℕ) : ℤ) - 1 then T12a (0 + 1) 0 else ⊤) :=
  stencil_axis_minima T12a 1 2 0 0

/-- Witness for `arrival_times_decrease_frozen_final` on the 1×2 unit
grid at cell `(0, 0)`. -/
theorem arrival_times_decrease_frozen_final_witness :
    (∀ n : ℕ, (fmmIter p12 0 0 (n + 1)).T 0 0 ≤ (fmmIter p12 0 0 n).T 0 0) ∧
    (∀ m n : ℕ, m ≤ n → (fmmIter p12 0 0 m).frozen 0 0 = true →
      (fmmIter p12 0 0 n).frozen 0 0 = true ∧
      (fmmIter p12 0 0 n).T 0 0 = (fmmIter p12 0 0 m).T 0 0) ∧
    (∀ m n : ℕ,
      ((fmmIter p12 0 0 m).frozen 0 0 = false ∧
        (fmmIter p12 0 0 (m + 1)).frozen 0 0 = true) →
      ((fmmIter p12 0 0 n).frozen 0 0 = false ∧
        (fmmIter p12 0 0 (n + 1)).frozen 0 0 = true) → m = n) :=
  arrival_times_decrease_frozen_final p12 0 0 0 0

/-- Witness for `trace_ray_bounded` on a 2×2 zero field. -/
theorem trace_ray_bounded_witness :
    (trace_ray (fun _ _ => 0) 2 2 (0, 0) (1, 1) 1).length ≤ 30000 ∧
    ∀ q ∈ (trace_ray (fun _ _ => 0) 2 2 (0, 0) (1, 1) 1).tail,
      inGrid 2 2 q :=
  trace_ray_bounded (fun _ _ => 0) 2 2 (0, 0) (1, 1) 1

/-- Witness for `trace_ray_first_is_target` on a 2×2 zero field with an
out-of-grid target. -/
theorem trace_ray_first_is_target_witness :
    trace_ray (fun _ _ => 0) 2 2 (-7, 9) (1, 1) 1 ≠ [] ∧
    (trace_ray (fun _ _ => 0) 2 2 (-7, 9) (1, 1) 1).head? =
      some ((-7 : ℝ), (9 : ℝ)) :=
  trace_ray_first_is_target (fun _ _ => 0) 2 2 (-7, 9) (1, 1) 1

/-- Witness for `trace_ray_never_fails_stop_causes` on a 2×2 zero field. -/
theorem trace_ray_never_fails_stop_causes_witness :
    trace_ray (fun _ _ => 0) 2 2 ((1 : ℝ), (1 : ℝ)) ((0 : ℝ), (0 : ℝ)) 1 =
      (traceRun (fun _ _ => 0) 2 2 1 1 0 0 1 30000).1 ∧
    ((traceRun (fun _ _ => 0) 2 2 1 1 0 0 1 30000).2 = .gradSmall ∨
      (∃ q, (traceRun (fun _ _ => 0) 2 2 1 1 0 0 1 30000).2 = .leftGrid q) ∨
      (traceRun (fun _ _ => 0) 2 2 1 1 0 0 1 30000).2 = .nearSource ∨
      (traceRun (fun _ _ => 0) 2 2 1 1 0 0 1 30000).2 = .fuelOut) ∧
    (∀ q, (traceRun (fun _ _ => 0) 2 2 1 1 0 0 1 30000).2 = .leftGrid q →
      ¬ inGrid 2 2 q ∧
      q ∉ (traceRun (fun _ _ => 0) 2 2 1 1 0 0 1 30000).1.tail) ∧
    ((traceRun (fun _ _ => 0) 2 2 1 1 0 0 1 30000).2 = .nearSource →
      ∃ l, (traceRun (fun _ _ => 0) 2 2 1 1 0 0 1 30000).1.getLast? =
          some l ∧
        Real.sqrt ((l.1 - 0) ^ 2 + (l.2 - 0) ^ 2) < 1 * 2) ∧
    ((traceRun (fun _ _ => 0) 2 2 1 1 0 0 1 30000).2 = .gradSmall →
      ∃ l, (traceRun (fun _ _ => 0) 2 2 1 1 0 0 1 30000).1.getLast? =
          some l ∧
        gradNorm (fun _ _ => 0) 2 2 l.1 l.2 < 1 / 10000000000) ∧
    ((traceRun (fun _ _ => 0) 2 2 1 1 0 0 1 30000).2 = .fuelOut →
      (traceRun (fun _ _ => 0) 2 2 1 1 0 0 1 30000).1.length = 30000) :=
  trace_ray_never_fails_stop_causes (fun _ _ => 0) 2 2 1 1 0 0 1

end

end Propage
